import Mathlib

/-!
FlashCard player — verification of the playback sequencing logic.

Shallow embedding of the playback-related parts of the flashcard React
component (`src/unnamed/part_000`): the card data model, the recorded-audio
resource locator (`audioFileName` / `audioUrlOf`), the repeat decision
function (`advanceOrRepeat`), the description narration
(`speakDescriptionThenNext`), the audio playback chain
(`playAudioOnce` / `playAudioWithRepeat` / `playRecordedOrTTS`), the
deck-order recomputation (Fisher–Yates shuffle effect, `logicalIndexToReal`)
and the transport handlers (`next` / `prev` / play-pause toggle /
replay-current / `unlockAudio`) as a step function on an explicit session
state.

Playback is callback-driven in the source; here each playback pipeline is
embedded as the trace of playback events it produces, assuming each started
unit eventually fires exactly one completion callback (which is itself one
of the verified properties of `playAudioOnce`).
-/

/-- The card speech-language union type of the source
(`"ko-KR" | "en-US"`). -/
inductive TTSLang where
  | koKR
  | enUS
deriving Repr, DecidableEq

/-- The language tag string a `TTSLang` value denotes. -/
def TTSLang.tag : TTSLang → String
  | .koKR => "ko-KR"
  | .enUS => "en-US"

/-- A flash card (source type `Card`).  `tts.lang`/`tts.rate` are flattened
into the two optional fields; the speaking rate (a JS number) is modelled as
a rational. -/
structure Card where
  id : Nat
  term : String
  description : Option String
  imageUrl : Option String
  ttsLang : Option TTSLang
  ttsRate : Option ℚ
deriving Repr, DecidableEq

/-- JS `String.prototype.padStart`: pad `s` on the left with `c` up to
length `n` (no truncation when `s` is already long enough). -/
def padStart (s : String) (n : Nat) (c : Char) : String :=
  String.mk (List.replicate (n - s.length) c) ++ s

/-- Source `audioFileName`: `{id padded to 4 digits with 0}_{lang}.mp3`,
the language defaulting to `ko-KR` when the card carries no speech hint. -/
def audioFileName (card : Card) : String :=
  let id := padStart (toString card.id) 4 (Char.ofNat 48)
  let lang := (card.ttsLang.map TTSLang.tag).getD "ko-KR"
  id ++ "_" ++ lang ++ ".mp3"

/-- ECMAScript `encodeURIComponent` leaves alphanumerics and
`- _ . ! ~ * ' ( )` unescaped (39 is the apostrophe). -/
def isURIUnreserved (c : Char) : Bool :=
  c.isAlpha || c.isDigit ||
    c = Char.ofNat 45 || c = Char.ofNat 95 || c = Char.ofNat 46 ||
    c = Char.ofNat 33 || c = Char.ofNat 126 || c = Char.ofNat 42 ||
    c = Char.ofNat 39 || c = Char.ofNat 40 || c = Char.ofNat 41

/-- UTF-8 bytes of a character, as naturals below 256. -/
def utf8Bytes (c : Char) : List Nat :=
  let n := c.toNat
  if n < 0x80 then [n]
  else if n < 0x800 then
    [0xC0 ||| (n >>> 6), 0x80 ||| (n &&& 0x3F)]
  else if n < 0x10000 then
    [0xE0 ||| (n >>> 12), 0x80 ||| ((n >>> 6) &&& 0x3F), 0x80 ||| (n &&& 0x3F)]
  else
    [0xF0 ||| (n >>> 18), 0x80 ||| ((n >>> 12) &&& 0x3F),
     0x80 ||| ((n >>> 6) &&& 0x3F), 0x80 ||| (n &&& 0x3F)]

/-- Uppercase hexadecimal digit (as `encodeURIComponent` emits). -/
def hexChar (n : Nat) : Char :=
  if n < 10 then Char.ofNat (48 + n) else Char.ofNat (55 + n)

/-- Percent-escape of one byte: `%XY` (37 is the percent sign). -/
def percentByte (b : Nat) : String :=
  String.mk [Char.ofNat 37, hexChar (b / 16), hexChar (b % 16)]

/-- Model of ECMAScript `encodeURIComponent`: unreserved characters pass
through, every other character is replaced by the percent escapes of its
UTF-8 bytes. -/
def encodeURIComponent (s : String) : String :=
  String.mk (s.data.flatMap fun c =>
    if isURIUnreserved c then [c]
    else (utf8Bytes c).flatMap fun b => (percentByte b).data)

/-- Source `audioUrlOf`: only the filename is percent-encoded, the
directory path is used verbatim. -/
def audioUrlOf (card : Card) : String :=
  "/audio/" ++ encodeURIComponent (audioFileName card)

/-- A speech-synthesis utterance as configured by the source
(`SpeechSynthesisUtterance`): text, optional language tag, speaking rate. -/
structure Utterance where
  text : String
  lang : Option String
  rate : ℚ
deriving Repr, DecidableEq

/-- Observable playback events of one card's playback pipeline.
`termUnit` is one completed play-through of the recorded audio clip
(`playAudioOnce` invoking its completion callback, by natural end, load
error or rejected play — see `playAudioOnce` below); `speakTerm` /
`speakDesc` are completed utterances of the term / the description;
`cancelSpeech` is `window.speechSynthesis.cancel()`; `resetAudioHandles`
is the pause branch rewinding every cached audio element; `advance` is
`setIndex((prev + 1) % cards.length)`. -/
inductive PlayEvent where
  | termUnit
  | speakTerm (u : Utterance)
  | speakDesc (u : Utterance)
  | cancelSpeech
  | resetAudioHandles
  | advance
deriving Repr, DecidableEq

/-- Source `advanceOrRepeat`: if the remaining-repeat counter is `> 1`,
decrement it and take the repeat continuation, otherwise take the done
continuation.  The source mutates `repeatRemainRef` before calling
`onRepeat`; here the updated counter is passed to the continuation. -/
def advanceOrRepeat {α : Type} (remain : Nat)
    (onRepeat : Nat → α) (onDone : Nat → α) : α :=
  if remain > 1 then onRepeat (remain - 1) else onDone remain

/-- JS `String.prototype.trim`: strip leading and trailing whitespace
(whitespace per `Char.isWhitespace`, which covers the space/tab/newline
characters occurring in card data). -/
def jsTrim (s : String) : String :=
  String.mk (((s.data.dropWhile Char.isWhitespace).reverse.dropWhile
    Char.isWhitespace).reverse)

/-- Source `speakDescriptionThenNext`: trims the description (missing
description counts as empty); empty text advances immediately (when still
playing) producing no audio; otherwise one utterance forced to language
`ko-KR` is spoken and its completion (end or error) advances when still
playing.  `rate` is the session TTS rate (`ttsRate`). -/
def speakDescriptionThenNext (isPlaying : Bool) (rate : ℚ) (card : Card) :
    List PlayEvent :=
  let text := jsTrim (card.description.getD "")
  if text = "" then
    if isPlaying then [.advance] else []
  else
    let u : Utterance := { text := text, lang := some "ko-KR", rate := card.ttsRate.getD rate }
    .cancelSpeech :: .speakDesc u :: (if isPlaying then [.advance] else [])

/-- Source `playAudioWithRepeat`: play the recorded clip once; on its
completion run the repeat decision (inlined `advanceOrRepeat` body; the
bridge lemma `playAudioWithRepeat_advanceOrRepeat` below states the CPS
form): repeat the same card, or — when done — read the description (if the
read-description preference is on) else advance when still playing. -/
def playAudioWithRepeat (readDesc isPlaying : Bool) (rate : ℚ) (card : Card)
    (remain : Nat) : List PlayEvent :=
  .termUnit ::
    (if remain > 1 then
      playAudioWithRepeat readDesc isPlaying rate card (remain - 1)
    else if readDesc then speakDescriptionThenNext isPlaying rate card
    else if isPlaying then [.advance] else [])
termination_by remain

/-- TTS fallback inside `playRecordedOrTTS` (`speakOnce` + the immediately
invoked `speakWithRepeat`): speak the term once (language only set when the
card provides one), then the same repeat wiring as the audio path. -/
def speakWithRepeat (readDesc isPlaying : Bool) (rate : ℚ) (card : Card)
    (remain : Nat) : List PlayEvent :=
  .speakTerm { text := card.term, lang := card.ttsLang.map TTSLang.tag,
               rate := card.ttsRate.getD rate } ::
    (if remain > 1 then
      speakWithRepeat readDesc isPlaying rate card (remain - 1)
    else if readDesc then speakDescriptionThenNext isPlaying rate card
    else if isPlaying then [.advance] else [])
termination_by remain

/-- Events observable during one `playAudioOnce` attempt: the completion
callback `onEnd` firing, and the diagnostic `console.warn` on a load/play
error. -/
inductive AttemptEvt where
  | onEndInvoked
  | warnLogged
deriving Repr, DecidableEq

/-- An `HTMLAudioElement` handle as used by `playAudioOnce`: the three
handler slots (modelled by the events each emits when it fires), the `loop`
flag and the playback position. -/
structure AudioHandle where
  onended : Option (List AttemptEvt)
  onerror : Option (List AttemptEvt)
  onpause : Option (List AttemptEvt)
  loop : Bool
  currentTime : Nat
deriving Repr, DecidableEq

/-- The single terminal outcome of one playback attempt: the media ends
naturally, the resource fails to load/decode (`error` event), or
`play()` returns a rejected promise. -/
inductive PlayOutcome where
  | ended
  | errored
  | playRejected
deriving Repr, DecidableEq

/-- Handle mutations of source `playAudioOnce` before `play()`: clear the
three stale handler slots, clear `loop`, rewind, then bind `onended` to the
completion callback and `onerror` to warn-then-complete.  `onEnd` is the
event list the completion callback emits. -/
def playAudioOnceSetup (onEnd : List AttemptEvt) (a : AudioHandle) : AudioHandle :=
  let a := { a with onended := none, onerror := none, onpause := none }
  let a := { a with loop := false, currentTime := 0 }
  { a with onended := some onEnd, onerror := some (.warnLogged :: onEnd) }

/-- Dispatch of one attempt's terminal outcome on a configured handle:
`ended`/`error` fire the bound handler slot (nothing when unbound);
a rejected `play()` runs the `.catch` continuation, which is `onEnd`. -/
def runOutcome (onEnd : List AttemptEvt) (a : AudioHandle) :
    PlayOutcome → List AttemptEvt
  | .ended => a.onended.getD []
  | .errored => a.onerror.getD []
  | .playRejected => onEnd

/-- Source `playAudioOnce(card, onEnd)` restricted to its observable
events: configure the (possibly stale) cached handle, then let the
attempt's single terminal outcome fire. -/
def playAudioOnce (stale : AudioHandle) (o : PlayOutcome) : List AttemptEvt :=
  runOutcome [.onEndInvoked] (playAudioOnceSetup [.onEndInvoked] stale) o

/-- The clamp `Math.max(1, Math.min(5, n))` applied to the repeat count
both when loading it from storage and on every user change.  The input is
an arbitrary integer (storage may hold anything `Number`-parseable). -/
def clampRepeat (v : Int) : Nat :=
  (max 1 (min 5 v)).toNat

/-- Source `logicalIndexToReal`: `orderRef.current[i] ?? i` — out-of-range
logical positions fall back to the identity mapping. -/
def logicalIndexToReal (order : List Nat) (i : Nat) : Nat :=
  order.getD i i

/-- One swap step of the shuffle effect:
`[arr[i], arr[j]] = [arr[j], arr[i]]` (a no-op when an index is out of
range, which the source loop never produces). -/
def listSwap (l : List Nat) (i j : Nat) : List Nat :=
  match l.get? i, l.get? j with
  | some a, some b => (l.set i b).set j a
  | _, _ => l

/-- The Fisher–Yates loop of the shuffle effect, from index `i` down to 1;
`rand i` stands for the sampled `j = Math.floor(Math.random() * (i + 1))`
(the theorems below hold for every `rand` whatsoever). -/
def fisherYatesAux (rand : Nat → Nat) : Nat → List Nat → List Nat
  | 0, l => l
  | i + 1, l => fisherYatesAux rand i (listSwap l (i + 1) (rand (i + 1)))

/-- The order-recomputation effect (`orderRef` effect, deps
`[cards, shuffle]`): the identity order `cards.map((_, i) => i)`, shuffled
in place by Fisher–Yates when the shuffle flag is set. -/
def reorder (deckSize : Nat) (shuffle : Bool) (rand : Nat → Nat) : List Nat :=
  let base := List.range deckSize
  if shuffle then fisherYatesAux rand (deckSize - 1) base else base

/-- The playback-relevant session state of the component: current logical
index, transport flag, unlock flag, the remaining-repeat counter
(`repeatRemainRef`), the configured repeat count, the TTS rate and the
prefer-audio / read-description preferences. -/
structure Session where
  index : Nat
  isPlaying : Bool
  isUnlocked : Bool
  repeatRemain : Nat
  repeatCount : Nat
  ttsRate : ℚ
  preferAudio : Bool
  readDescription : Bool
deriving Repr, DecidableEq

/-- Source `playRecordedOrTTS`: a no-op before the unlock gesture;
otherwise cancel any in-flight speech and run the mp3 pipeline
(`playAudioWithRepeat`) when audio is preferred, else the TTS fallback
(`speakWithRepeat`), both starting from the current remaining-repeat
counter. -/
def playRecordedOrTTS (s : Session) (card : Card) : List PlayEvent :=
  if !s.isUnlocked then []
  else if s.preferAudio then
    .cancelSpeech ::
      playAudioWithRepeat s.readDescription s.isPlaying s.ttsRate card s.repeatRemain
  else
    .cancelSpeech ::
      speakWithRepeat s.readDescription s.isPlaying s.ttsRate card s.repeatRemain

/-- The repeat-counter reset effect (deps `[index, selectedFolderId,
repeatCount]`): whenever the current index actually changes, the remaining
counter is re-initialized to the configured count. -/
def setIndexEffect (s : Session) (newIndex : Nat) : Session :=
  if newIndex = s.index then s
  else { s with index := newIndex, repeatRemain := s.repeatCount }

/-- The card-change playback effect (deps `[index, cards, ttsRate,
preferAudio, isPlaying]`): while playing on a nonempty deck, (re)start
playback of the card at the current logical position. -/
def cardChangeEffect (cards : List Card) (order : List Nat) (s : Session) :
    List PlayEvent :=
  if !s.isPlaying then []
  else if cards.length = 0 then []
  else
    match cards.get? (logicalIndexToReal order (s.index % cards.length)) with
    | some card => playRecordedOrTTS s card
    | none => []

/-- Transport `next`: a guarded no-op on an empty deck, else advance the
logical index with wrap-around (the counter-reset and card-change effects
then fire on the changed index). -/
def nextStep (cards : List Card) (order : List Nat) (s : Session) :
    Session × List PlayEvent :=
  if cards.length = 0 then (s, [])
  else
    let s' := setIndexEffect s ((s.index + 1) % cards.length)
    (s', if s'.index = s.index then [] else cardChangeEffect cards order s')

/-- Transport `prev`: a guarded no-op on an empty deck, else retreat the
logical index, `(i - 1 + cards.length) % cards.length` computed over the
integers as in JS. -/
def prevStep (cards : List Card) (order : List Nat) (s : Session) :
    Session × List PlayEvent :=
  if cards.length = 0 then (s, [])
  else
    let s' := setIndexEffect s
      ((((s.index : Int) - 1 + cards.length) % (cards.length : Int)).toNat)
    (s', if s'.index = s.index then [] else cardChangeEffect cards order s')

/-- The pause arm of the play/pause toggle: drop the playing flag, cancel
speech, pause/rewind every cached audio handle and clear its bindings. -/
def pauseBranch (s : Session) : Session × List PlayEvent :=
  ({ s with isPlaying := false }, [.cancelSpeech, .resetAudioHandles])

/-- The play arm of the play/pause toggle: raise the playing flag, reset
the remaining-repeat counter to the configured count, and start playback of
the current card when one exists.  (The source's immediate
`playRecordedOrTTS` call races with the card-change effect re-firing on the
flag change; both start playback of the same card, modelled as one start.) -/
def playBranch (cards : List Card) (order : List Nat) (s : Session) :
    Session × List PlayEvent :=
  let s' := { s with isPlaying := true, repeatRemain := s.repeatCount }
  match cards.get?
      (if cards.length ≠ 0 then logicalIndexToReal order (s.index % cards.length) else 0) with
  | some card => (s', playRecordedOrTTS s' card)
  | none => (s', [])

/-- The replay-current button: resolve the current card (a guarded no-op
when none exists), reset the remaining-repeat counter, restart playback.
The playing flag is not touched. -/
def replayCurrent (cards : List Card) (order : List Nat) (s : Session) :
    Session × List PlayEvent :=
  match cards.get?
      (if cards.length ≠ 0 then logicalIndexToReal order (s.index % cards.length) else 0) with
  | some card =>
    ({ s with repeatRemain := s.repeatCount },
     playRecordedOrTTS { s with repeatRemain := s.repeatCount } card)
  | none => (s, [])

/-- One completed playback unit feeding `advanceOrRepeat`, as a session
transition: while `remaining > 1` the counter decrements (same card
replays); otherwise the done path advances the index while playing (the
index change re-initializing the counter through `setIndexEffect`). -/
def unitCompleteStep (cards : List Card) (s : Session) : Session :=
  if s.repeatRemain > 1 then { s with repeatRemain := s.repeatRemain - 1 }
  else if s.isPlaying && cards.length != 0 then
    setIndexEffect s ((s.index + 1) % cards.length)
  else s

/-- User-driven transport events plus the completion of one playback
unit. -/
inductive SessionEvent where
  | next
  | prev
  | playPause
  | replayCur
  | unlock
  | setRepeat (v : Int)
  | unitComplete
deriving Repr, DecidableEq

/-- The session step function: dispatches a transport event to the source
handler it embeds (`next` / `prev` / the play-pause toggle onClick /
the replay-current onClick / `unlockAudio` / the repeat-count select
onChange with its clamp / the repeat decision after a completed unit). -/
def stepEvent (cards : List Card) (order : List Nat) (e : SessionEvent)
    (s : Session) : Session × List PlayEvent :=
  match e with
  | .next => nextStep cards order s
  | .prev => prevStep cards order s
  | .playPause => if s.isPlaying then pauseBranch s else playBranch cards order s
  | .replayCur => replayCurrent cards order s
  | .unlock => ({ s with isUnlocked := true }, [])
  | .setRepeat v =>
    let c := clampRepeat v
    (if c = s.repeatCount then s
     else { s with repeatCount := c, repeatRemain := c }, [])
  | .unitComplete => (unitCompleteStep cards s, [])

/-- Bridge: `playAudioWithRepeat` is the literal CPS wiring through
`advanceOrRepeat` that the source writes. -/
theorem playAudioWithRepeat_advanceOrRepeat (rd ip : Bool) (rate : ℚ) (card : Card)
    (remain : Nat) :
    playAudioWithRepeat rd ip rate card remain =
      .termUnit ::
        advanceOrRepeat remain
          (fun r => playAudioWithRepeat rd ip rate card r)
          (fun _ =>
            if rd then speakDescriptionThenNext ip rate card
            else if ip then [.advance] else []) := by
  rw [playAudioWithRepeat, advanceOrRepeat]

/-- What follows the term repeats: the description path when the
read-description preference is on, else a bare advance while playing. -/
def doneTail (rd ip : Bool) (rate : ℚ) (card : Card) : List PlayEvent :=
  if rd then speakDescriptionThenNext ip rate card
  else if ip then [PlayEvent.advance] else []

/-- The audio pipeline starting with counter `n ≥ 1` plays the term
exactly `n` times and then runs the done path. -/
theorem playAudioWithRepeat_eq (rd ip : Bool) (rate : ℚ) (card : Card) :
    ∀ n, 1 ≤ n →
      playAudioWithRepeat rd ip rate card n =
        List.replicate n .termUnit ++ doneTail rd ip rate card := by
  intro n
  induction n with
  | zero => omega
  | succ k ih =>
    intro _
    rw [playAudioWithRepeat]
    rcases Nat.eq_zero_or_pos k with hk | hk
    · subst hk
      simp [doneTail]
    · have h1 : k + 1 > 1 := by omega
      simp only [if_pos h1, Nat.add_sub_cancel, ih hk]
      simp [List.replicate_succ]

/-- C1: for every configured repeat count `N` in `[1,5]`, the repeat
decision function decrements and replays while `remaining > 1` and
otherwise proceeds to done, so a card without a description (trimmed
empty), with read-description on, yields exactly `N` term playback units,
zero description units, and then the advance. -/
theorem claim_C1_repeat_count_exact :
    (∀ (α : Type) (r : Nat) (onRep onDone : Nat → α),
      (r > 1 → advanceOrRepeat r onRep onDone = onRep (r - 1)) ∧
      (r ≤ 1 → advanceOrRepeat r onRep onDone = onDone r)) ∧
    (∀ (N : Nat), 1 ≤ N → N ≤ 5 → ∀ (card : Card) (rate : ℚ),
      jsTrim (card.description.getD "") = "" →
      playAudioWithRepeat true true rate card N =
        List.replicate N .termUnit ++ [.advance]) := by
  constructor
  · intro α r onRep onDone
    constructor
    · intro h
      simp [advanceOrRepeat, h]
    · intro h
      simp [advanceOrRepeat, Nat.not_lt.mpr h]
  · intro N hN _ card rate hdesc
    rw [playAudioWithRepeat_eq _ _ _ _ N hN]
    simp [doneTail, speakDescriptionThenNext, hdesc]

/-- A sample card without description, used to instantiate claim C1. -/
def cardNoDesc : Card :=
  { id := 1, term := "사과", description := none, imageUrl := none,
    ttsLang := some .koKR, ttsRate := none }

/-- Witness for C1 at `N = 3` on a concrete description-free card. -/
theorem claim_C1_repeat_count_exact_witness :
    playAudioWithRepeat true true 1 cardNoDesc 3 =
      List.replicate 3 .termUnit ++ [.advance] :=
  claim_C1_repeat_count_exact.2 3 (by decide) (by decide) cardNoDesc 1 (by decide)

/-- C2: with read-description on, a card whose trimmed description is
non-empty gets, after the `N` term repeats, exactly one description
narration — always in language `ko-KR`, whatever the card's configured
language — followed by exactly one advance; an empty (or whitespace-only)
description advances immediately with no description audio; and when the
session is no longer playing no advance is emitted at all. -/
theorem claim_C2_description_narration :
    ∀ (card : Card) (rate : ℚ) (N : Nat), 1 ≤ N →
      (jsTrim (card.description.getD "") ≠ "" →
        playAudioWithRepeat true true rate card N =
          List.replicate N .termUnit ++
            [.cancelSpeech,
             .speakDesc { text := jsTrim (card.description.getD ""),
                          lang := some "ko-KR",
                          rate := card.ttsRate.getD rate },
             .advance]) ∧
      (jsTrim (card.description.getD "") = "" →
        playAudioWithRepeat true true rate card N =
          List.replicate N .termUnit ++ [.advance]) ∧
      (speakDescriptionThenNext false rate card =
        if jsTrim (card.description.getD "") = "" then []
        else [.cancelSpeech,
              .speakDesc { text := jsTrim (card.description.getD ""),
                           lang := some "ko-KR",
                           rate := card.ttsRate.getD rate }]) := by
  intro card rate N hN
  refine ⟨?_, ?_, ?_⟩
  · intro hdesc
    rw [playAudioWithRepeat_eq _ _ _ _ N hN]
    simp [doneTail, speakDescriptionThenNext, hdesc]
  · intro hdesc
    rw [playAudioWithRepeat_eq _ _ _ _ N hN]
    simp [doneTail, speakDescriptionThenNext, hdesc]
  · by_cases hdesc : jsTrim (card.description.getD "") = "" <;>
      simp [speakDescriptionThenNext, hdesc]

/-- A sample card with a whitespace-padded description and an English
language hint, used to instantiate claim C2. -/
def cardWithDesc : Card :=
  { id := 2, term := "banana", description := some " a yellow fruit ",
    imageUrl := none, ttsLang := some .enUS, ttsRate := none }

/-- Witness for C2 at `N = 2`: the description is narrated once in
`ko-KR` although the card is configured `en-US`. -/
theorem claim_C2_description_narration_witness :
    playAudioWithRepeat true true 1 cardWithDesc 2 =
      List.replicate 2 .termUnit ++
        [.cancelSpeech,
         .speakDesc { text := "a yellow fruit", lang := some "ko-KR", rate := 1 },
         .advance] := by
  have h := (claim_C2_description_narration cardWithDesc 1 2 (by decide)).1 (by decide)
  rw [h]
  decide

/-- The counter-reset effect never changes which index was set. -/
theorem setIndexEffect_index (s : Session) (n : Nat) :
    (setIndexEffect s n).index = n := by
  unfold setIndexEffect
  split
  · omega
  · rfl

/-- C3: on a non-empty deck of size `D` with current position `i < D`,
`next` sets the position to `(i + 1) % D` and `prev` to
`(i - 1 + D) % D` (integer arithmetic as in JS); advancing from the last
position wraps to `0`, retreating from `0` wraps to the last position, and
for `D = 1` both operations keep the position at `0`. -/
theorem claim_C3_next_prev_wraparound :
    ∀ (cards : List Card) (order : List Nat) (s : Session),
      0 < cards.length → s.index < cards.length →
      ((nextStep cards order s).1.index = (s.index + 1) % cards.length) ∧
      (((prevStep cards order s).1.index : Int) =
        ((s.index : Int) - 1 + cards.length) % (cards.length : Int)) ∧
      (s.index = cards.length - 1 → (nextStep cards order s).1.index = 0) ∧
      (s.index = 0 → (prevStep cards order s).1.index = cards.length - 1) ∧
      (cards.length = 1 →
        (nextStep cards order s).1.index = 0 ∧
        (prevStep cards order s).1.index = 0) := by
  intro cards order s hD hi
  have hD0 : cards.length ≠ 0 := by omega
  have hnext : (nextStep cards order s).1.index = (s.index + 1) % cards.length := by
    unfold nextStep
    simp only [if_neg hD0]
    exact setIndexEffect_index _ _
  have hprev : (prevStep cards order s).1.index =
      ((((s.index : Int) - 1 + cards.length) % (cards.length : Int))).toNat := by
    unfold prevStep
    simp only [if_neg hD0]
    exact setIndexEffect_index _ _
  have hmodnn : 0 ≤ ((s.index : Int) - 1 + cards.length) % (cards.length : Int) :=
    Int.emod_nonneg _ (by exact_mod_cast hD0)
  refine ⟨hnext, ?_, ?_, ?_, ?_⟩
  · rw [hprev, Int.toNat_of_nonneg hmodnn]
  · intro hlast
    rw [hnext, hlast, Nat.sub_add_cancel hD, Nat.mod_self]
  · intro h0
    rw [hprev, h0]
    have harg : ((0 : Nat) : Int) - 1 + cards.length = (cards.length : Int) - 1 := by
      ring
    rw [harg, Int.emod_eq_of_lt (by omega) (by omega)]
    omega
  · intro h1
    constructor
    · rw [hnext, h1, Nat.mod_one]
    · rw [hprev, h1]
      simp [Int.emod_one]

/-- A two-card deck used to instantiate claims about the transport
handlers. -/
def deckTwo : List Card :=
  [cardNoDesc, cardWithDesc]

/-- A session positioned at the last card of `deckTwo`, playing, unlocked. -/
def sessionAtLast : Session :=
  { index := 1, isPlaying := true, isUnlocked := true, repeatRemain := 2,
    repeatCount := 2, ttsRate := 1, preferAudio := true,
    readDescription := false }

/-- Witness for C3 on the concrete two-card deck: advancing from the last
position wraps to `0`. -/
theorem claim_C3_next_prev_wraparound_witness :
    (nextStep deckTwo [0, 1] sessionAtLast).1.index = 0 :=
  (claim_C3_next_prev_wraparound deckTwo [0, 1] sessionAtLast
    (by decide) (by decide)).2.2.1 (by decide)

/-- C4: whatever handlers a (possibly stale) cached handle still carries,
one `playAudioOnce` attempt invokes the completion callback exactly once
for each possible terminal outcome — natural end of media, load/decode
error, or rejected `play()` — and a failure differs from a success only by
the diagnostic log, so the repeat/advance logic proceeds identically. -/
theorem claim_C4_onEnd_exactly_once :
    ∀ stale : AudioHandle,
      (∀ o : PlayOutcome, (playAudioOnce stale o).count .onEndInvoked = 1) ∧
      playAudioOnce stale .errored = .warnLogged :: playAudioOnce stale .ended := by
  intro stale
  constructor
  · intro o
    cases o <;> simp [playAudioOnce, playAudioOnceSetup, runOutcome, List.count]
  · simp [playAudioOnce, playAudioOnceSetup, runOutcome]

/-- C5: before the unlock gesture every playback request is silently
dropped (`playRecordedOrTTS` produces no event at all); the unlock event
raises the flag; once raised, no session event ever clears it again, so
the gate never blocks playback for the rest of the session — an unlocked
request always produces playback events. -/
theorem claim_C5_unlock_gate :
    ∀ (cards : List Card) (order : List Nat) (s : Session) (card : Card),
      (s.isUnlocked = false → playRecordedOrTTS s card = []) ∧
      (s.isUnlocked = true → playRecordedOrTTS s card ≠ []) ∧
      ((stepEvent cards order .unlock s).1.isUnlocked = true) ∧
      (∀ e : SessionEvent, s.isUnlocked = true →
        (stepEvent cards order e s).1.isUnlocked = true) := by
  intro cards order s card
  refine ⟨?_, ?_, rfl, ?_⟩
  · intro h
    simp [playRecordedOrTTS, h]
  · intro h
    by_cases hp : s.preferAudio <;> simp [playRecordedOrTTS, h, hp]
  · intro e h
    cases e with
    | next =>
      simp only [stepEvent, nextStep]
      split
      · exact h
      · unfold setIndexEffect
        split <;> simp [h]
    | prev =>
      simp only [stepEvent, prevStep]
      split
      · exact h
      · unfold setIndexEffect
        split <;> simp [h]
    | playPause =>
      simp only [stepEvent]
      split
      · simpa [pauseBranch] using h
      · unfold playBranch
        split <;> simp [h]
    | replayCur =>
      simp only [stepEvent]
      unfold replayCurrent
      split <;> simp [h]
    | unlock => rfl
    | setRepeat v =>
      simp only [stepEvent]
      split <;> simp [h]
    | unitComplete =>
      simp only [stepEvent, unitCompleteStep]
      split
      · exact h
      · split
        · unfold setIndexEffect
          split <;> simp [h]
        · exact h

/-- A fresh, locked, idle session with default settings. -/
def sessionLocked : Session :=
  { index := 0, isPlaying := false, isUnlocked := false, repeatRemain := 1,
    repeatCount := 1, ttsRate := 1, preferAudio := true,
    readDescription := false }

/-- Witness for C5: a locked request produces nothing; unlock raises the
flag; a later transport event keeps it raised. -/
theorem claim_C5_unlock_gate_witness :
    playRecordedOrTTS sessionLocked cardNoDesc = [] ∧
    (stepEvent deckTwo [0, 1] .unlock sessionLocked).1.isUnlocked = true ∧
    (stepEvent deckTwo [0, 1] .next sessionAtLast).1.isUnlocked = true :=
  ⟨(claim_C5_unlock_gate deckTwo [0, 1] sessionLocked cardNoDesc).1 rfl,
   (claim_C5_unlock_gate deckTwo [0, 1] sessionLocked cardNoDesc).2.2.1,
   (claim_C5_unlock_gate deckTwo [0, 1] sessionAtLast cardNoDesc).2.2.2 .next rfl⟩

/-- Counterexample to C6 as stated: on an empty deck the play/pause toggle
does change the session state — from an idle session it raises the playing
flag (and resets the repeat counter) even though no card exists. -/
theorem claim_C6_empty_deck_counterexample :
    (stepEvent [] [] .playPause sessionLocked).1 ≠ sessionLocked := by
  intro h
  have := congrArg Session.isPlaying h
  simp [stepEvent, playBranch, sessionLocked] at this

/-- C6 (amended): on an empty deck, `next`, `prev` and replay-current
leave the session state unchanged and produce no effect (and raise no
exception — all handlers are total); the play/pause toggle also raises no
exception and starts no playback, but it does flip the playing flag (the
play arm additionally resetting the repeat counter); and the pause arm is
idempotent — a second consecutive pause is a no-op. -/
theorem claim_C6_empty_deck_noop :
    ∀ (order : List Nat) (s : Session),
      stepEvent [] order .next s = (s, []) ∧
      stepEvent [] order .prev s = (s, []) ∧
      stepEvent [] order .replayCur s = (s, []) ∧
      (stepEvent [] order .playPause s).2 =
        (if s.isPlaying then [.cancelSpeech, .resetAudioHandles] else []) ∧
      (stepEvent [] order .playPause s).1 =
        (if s.isPlaying then { s with isPlaying := false }
         else { s with isPlaying := true, repeatRemain := s.repeatCount }) ∧
      pauseBranch (pauseBranch s).1 = pauseBranch s := by
  intro order s
  refine ⟨rfl, rfl, rfl, ?_, ?_, rfl⟩ <;>
    by_cases hp : s.isPlaying <;>
      simp [stepEvent, pauseBranch, playBranch, hp]

/-- Whether a playback event is one recorded-audio play-through of the
term. -/
def isTermUnit : PlayEvent → Bool
  | .termUnit => true
  | _ => false

/-- Number of term playback units in a trace. -/
def termUnitCount (l : List PlayEvent) : Nat :=
  l.countP isTermUnit

/-- The done path after the repeats contains no term playback unit. -/
theorem termUnitCount_doneTail (rd ip : Bool) (rate : ℚ) (card : Card) :
    termUnitCount (doneTail rd ip rate card) = 0 := by
  unfold doneTail speakDescriptionThenNext termUnitCount
  by_cases h : jsTrim (card.description.getD "") = "" <;>
    cases rd <;> cases ip <;>
      simp [h, List.countP_cons, isTermUnit]

/-- The audio pipeline starting with counter `n ≥ 1` contains exactly `n`
term playback units. -/
theorem termUnitCount_playAudioWithRepeat (rd ip : Bool) (rate : ℚ) (card : Card)
    (n : Nat) (hn : 1 ≤ n) :
    termUnitCount (playAudioWithRepeat rd ip rate card n) = n := by
  rw [playAudioWithRepeat_eq rd ip rate card n hn]
  unfold termUnitCount
  rw [List.countP_append]
  clear hn
  have hrep : (List.replicate n PlayEvent.termUnit).countP isTermUnit = n := by
    induction n with
    | zero => rfl
    | succ k ih => simp [List.replicate_succ, List.countP_cons, isTermUnit, ih]
  rw [hrep]
  have := termUnitCount_doneTail rd ip rate card
  unfold termUnitCount at this
  omega

/-- C7: from a playing session with a current card, pausing and then
resuming resets the remaining-repeat counter to the full configured count
for the same (unchanged) card, and — when unlocked with audio preferred —
restarts playback from the first unit, the restarted trace holding the full
`repeatCount` term units (never a mid-count remainder); replay-current
likewise resets the counter to the configured count. -/
theorem claim_C7_pause_resume_restarts :
    ∀ (cards : List Card) (order : List Nat) (s : Session) (card : Card),
      s.isPlaying = true →
      cards.get?
        (if cards.length ≠ 0 then logicalIndexToReal order (s.index % cards.length)
         else 0) = some card →
      1 ≤ s.repeatCount →
      ((stepEvent cards order .playPause
          (stepEvent cards order .playPause s).1).1.repeatRemain = s.repeatCount ∧
       (stepEvent cards order .playPause
          (stepEvent cards order .playPause s).1).1.index = s.index ∧
       (s.isUnlocked = true → s.preferAudio = true →
         (stepEvent cards order .playPause
            (stepEvent cards order .playPause s).1).2 =
           .cancelSpeech ::
             playAudioWithRepeat s.readDescription true s.ttsRate card
               s.repeatCount ∧
         termUnitCount
           (stepEvent cards order .playPause
              (stepEvent cards order .playPause s).1).2 = s.repeatCount)) ∧
      (stepEvent cards order .replayCur s).1.repeatRemain = s.repeatCount := by
  intro cards order s card hplay hcard hcnt
  have hpause : (stepEvent cards order .playPause s).1 =
      { s with isPlaying := false } := by
    simp [stepEvent, hplay, pauseBranch]
  have hresume : stepEvent cards order .playPause
      { s with isPlaying := false } =
      playBranch cards order { s with isPlaying := false } := by
    simp [stepEvent]
  have htrace : stepEvent cards order .playPause
      (stepEvent cards order .playPause s).1 =
      ({ s with isPlaying := true, repeatRemain := s.repeatCount },
        playRecordedOrTTS
          { s with isPlaying := true, repeatRemain := s.repeatCount } card) := by
    rw [hpause, hresume]
    unfold playBranch
    rw [hcard]
  refine ⟨⟨by rw [htrace], by rw [htrace], ?_⟩, ?_⟩
  · intro hu hpa
    have heff : (stepEvent cards order .playPause
        (stepEvent cards order .playPause s).1).2 =
        .cancelSpeech ::
          playAudioWithRepeat s.readDescription true s.ttsRate card
            s.repeatCount := by
      rw [htrace]
      simp [playRecordedOrTTS, hu, hpa]
    refine ⟨heff, ?_⟩
    rw [heff]
    unfold termUnitCount
    rw [List.countP_cons]
    have := termUnitCount_playAudioWithRepeat s.readDescription true s.ttsRate
      card s.repeatCount hcnt
    unfold termUnitCount at this
    simp [isTermUnit, this]
  · simp only [stepEvent]
    unfold replayCurrent
    rw [hcard]

/-- Witness for C7 on the concrete playing session: pause then resume
resets the counter to the configured count 2 and the restarted trace plays
the term twice. -/
theorem claim_C7_pause_resume_restarts_witness :
    (stepEvent deckTwo [0, 1] .playPause
        (stepEvent deckTwo [0, 1] .playPause sessionAtLast).1).1.repeatRemain = 2 ∧
    termUnitCount
      (stepEvent deckTwo [0, 1] .playPause
          (stepEvent deckTwo [0, 1] .playPause sessionAtLast).1).2 = 2 := by
  have h := claim_C7_pause_resume_restarts deckTwo [0, 1] sessionAtLast
    cardWithDesc rfl (by decide) (by decide)
  exact ⟨h.1.1, (h.1.2.2 rfl rfl).2⟩

/-- Moving the element at position `m` to the front while writing `x` at
position `m` permutes `x` onto the front. -/
theorem cons_set_perm :
    ∀ (xs : List Nat) (m : Nat) (h : m < xs.length) (x : Nat),
      (xs.get ⟨m, h⟩ :: xs.set m x).Perm (x :: xs) := by
  intro xs
  induction xs with
  | nil => intro m h; cases h
  | cons y ys ih =>
    intro m h x
    cases m with
    | zero => simpa using List.Perm.swap x y ys
    | succ k =>
      have hk : k < ys.length := by simpa using h
      exact (List.Perm.swap _ _ _).trans
        (((ih k hk x).cons y).trans (List.Perm.swap _ _ _))

/-- Exchanging the elements at two positions (via two writes) is a
permutation. -/
theorem set_set_perm :
    ∀ (l : List Nat) (i j : Nat) (hi : i < l.length) (hj : j < l.length),
      ((l.set i (l.get ⟨j, hj⟩)).set j (l.get ⟨i, hi⟩)).Perm l := by
  intro l
  induction l with
  | nil => intro i j hi; cases hi
  | cons y ys ih =>
    intro i j hi hj
    cases i with
    | zero =>
      cases j with
      | zero => simp
      | succ b =>
        have hb : b < ys.length := by simpa using hj
        simpa using cons_set_perm ys b hb y
    | succ a =>
      have ha : a < ys.length := by simpa using hi
      cases j with
      | zero =>
        simpa using cons_set_perm ys a ha y
      | succ b =>
        have hb : b < ys.length := by simpa using hj
        simpa using (ih a b ha hb).cons y

/-- One loop step of the shuffle is a permutation (also when a sampled
index is out of range, where it is the identity). -/
theorem listSwap_perm (l : List Nat) (i j : Nat) : (listSwap l i j).Perm l := by
  unfold listSwap
  split
  case h_1 a b ha hb =>
    obtain ⟨hi, hia⟩ := List.get?_eq_some.mp ha
    obtain ⟨hj, hjb⟩ := List.get?_eq_some.mp hb
    subst hia hjb
    exact set_set_perm l i j hi hj
  case h_2 => exact List.Perm.refl l

/-- The whole Fisher–Yates loop is a permutation of its input, whatever
the sampled indices. -/
theorem fisherYatesAux_perm (rand : Nat → Nat) :
    ∀ (i : Nat) (l : List Nat), (fisherYatesAux rand i l).Perm l := by
  intro i
  induction i with
  | zero => intro l; exact List.Perm.refl l
  | succ k ih =>
    intro l
    exact (ih (listSwap l (k + 1) (rand (k + 1)))).trans
      (listSwap_perm l (k + 1) (rand (k + 1)))

/-- C8: recomputing the order with shuffle on yields a permutation of
`[0, deckSize)` — a duplicate-free rearrangement of the identity order,
hence a bijection — for every possible random draw; with shuffle off it
yields the identity order; and the logical-to-real mapping is the identity
on any out-of-range logical index instead of failing. -/
theorem claim_C8_reorder_permutation :
    ∀ (deckSize : Nat) (rand : Nat → Nat),
      (reorder deckSize true rand).Perm (List.range deckSize) ∧
      (reorder deckSize true rand).Nodup ∧
      reorder deckSize false rand = List.range deckSize ∧
      (∀ (order : List Nat) (i : Nat), order.length ≤ i →
        logicalIndexToReal order i = i) := by
  intro deckSize rand
  have hperm : (reorder deckSize true rand).Perm (List.range deckSize) := by
    unfold reorder
    simpa using fisherYatesAux_perm rand (deckSize - 1) (List.range deckSize)
  refine ⟨hperm, ?_, rfl, ?_⟩
  · exact hperm.nodup_iff.mpr (List.nodup_range deckSize)
  · intro order i h
    unfold logicalIndexToReal
    exact List.getD_eq_default order i h

/-- Witness for C8's out-of-range clause at a concrete order and index. -/
theorem claim_C8_reorder_permutation_witness :
    logicalIndexToReal [1, 0] 5 = 5 :=
  (claim_C8_reorder_permutation 2 (fun _ => 0)).2.2.2 [1, 0] 5 (by decide)

/-- `Char.ofNat` on a valid code point round-trips through `toNat`. -/
theorem toNat_ofNat_valid (n : Nat) (h : n.isValidChar) :
    (Char.ofNat n).toNat = n := by
  simp [Char.ofNat, h, Char.ofNatAux, Char.toNat, UInt32.toNat, BitVec.toNat_ofNatLt]

/-- `Char.ofNat` on an invalid code point falls back to the NUL char. -/
theorem toNat_ofNat_invalid (n : Nat) (h : ¬ n.isValidChar) :
    (Char.ofNat n).toNat = 0 := by
  simp [Char.ofNat, h, Char.toNat, UInt32.toNat]

/-- A hex digit is never the path separator `/` (code point 47). -/
theorem hexChar_ne_slash (n : Nat) : hexChar n ≠ Char.ofNat 47 := by
  intro h
  have h47 : (Char.ofNat 47).toNat = 47 := by decide
  have htn := congrArg Char.toNat h
  rw [h47] at htn
  unfold hexChar at htn
  split at htn
  · case isTrue hn =>
    rw [toNat_ofNat_valid _ (Or.inl (by omega))] at htn
    omega
  · case isFalse hn =>
    by_cases hv : (55 + n).isValidChar
    · rw [toNat_ofNat_valid _ hv] at htn
      omega
    · rw [toNat_ofNat_invalid _ hv] at htn
      omega

/-- A percent escape contains no path separator. -/
theorem percentByte_no_slash (b : Nat) :
    Char.ofNat 47 ∉ (percentByte b).data := by
  unfold percentByte
  intro h
  simp only [List.mem_cons, List.not_mem_nil, or_false] at h
  rcases h with h | h | h
  · exact absurd (congrArg Char.toNat h) (by decide)
  · exact hexChar_ne_slash (b / 16) h.symm
  · exact hexChar_ne_slash (b % 16) h.symm

/-- `encodeURIComponent` never emits a path separator: an unreserved
character is not `/`, and every other character becomes percent escapes. -/
theorem encodeURIComponent_no_slash (s : String) :
    Char.ofNat 47 ∉ (encodeURIComponent s).data := by
  intro h
  rcases List.mem_flatMap.mp h with ⟨c, _, hc⟩
  by_cases hu : isURIUnreserved c
  · rw [if_pos hu] at hc
    have hc47 := List.mem_singleton.mp hc
    rw [← hc47] at hu
    revert hu
    decide
  · rw [if_neg hu] at hc
    rcases List.mem_flatMap.mp hc with ⟨b, _, hb⟩
    exact percentByte_no_slash b hb

/-- C9: the recorded-audio resource URL is the audio directory path joined
with the percent-encoding of the filename
`{id zero-padded to 4 digits}_{lang}.mp3` (the language defaulting to
`ko-KR` when the card has no speech hint); only the filename goes through
the encoder, the directory prefix is the verbatim literal, and the encoded
filename can introduce no further path separator. -/
theorem claim_C9_audio_url_convention :
    ∀ card : Card,
      audioUrlOf card = "/audio/" ++ encodeURIComponent (audioFileName card) ∧
      audioFileName card =
        padStart (toString card.id) 4 (Char.ofNat 48) ++ "_" ++
          (card.ttsLang.map TTSLang.tag).getD "ko-KR" ++ ".mp3" ∧
      Char.ofNat 47 ∉ (encodeURIComponent (audioFileName card)).data := by
  intro card
  exact ⟨rfl, rfl, encodeURIComponent_no_slash (audioFileName card)⟩

/-- The invariant claimed for claim C10: the remaining-repeat counter is
at least 1, and the configured count is in `[1, 5]`. -/
def SessionInv (s : Session) : Prop :=
  1 ≤ s.repeatRemain ∧ 1 ≤ s.repeatCount ∧ s.repeatCount ≤ 5

/-- The counter-reset effect preserves the invariant. -/
theorem setIndexEffect_inv (s : Session) (n : Nat) (h : SessionInv s) :
    SessionInv (setIndexEffect s n) := by
  unfold setIndexEffect
  split
  · exact h
  · exact ⟨h.2.1, h.2.1, h.2.2⟩

/-- C10: the remaining-repeat counter can never reach zero: the clamp
applied on load and on every user change keeps the configured count in
`[1, 5]`; the repeat decision function only decrements when the counter is
strictly greater than 1 (at `≤ 1` it takes the done path, leaving at least
1); and every session event — transport actions, repeat-count changes, and
any sequence of completed playback units — preserves the invariant. -/
theorem claim_C10_repeat_remain_positive :
    (∀ v : Int, 1 ≤ clampRepeat v ∧ clampRepeat v ≤ 5) ∧
    (∀ (α : Type) (r : Nat) (onRep onDone : Nat → α), r ≤ 1 →
      advanceOrRepeat r onRep onDone = onDone r) ∧
    (∀ r : Nat, 1 ≤ r → 1 ≤ advanceOrRepeat r id id) ∧
    (∀ (cards : List Card) (order : List Nat) (e : SessionEvent) (s : Session),
      SessionInv s → SessionInv (stepEvent cards order e s).1) := by
  refine ⟨?_, ?_, ?_, ?_⟩
  · intro v
    unfold clampRepeat
    omega
  · intro α r onRep onDone h
    unfold advanceOrRepeat
    rw [if_neg (by omega)]
  · intro r h
    unfold advanceOrRepeat
    split <;> simp <;> omega
  · intro cards order e s hs
    obtain ⟨h1, h2, h3⟩ := hs
    cases e with
    | next =>
      simp only [stepEvent, nextStep]
      split
      · exact ⟨h1, h2, h3⟩
      · exact setIndexEffect_inv s _ ⟨h1, h2, h3⟩
    | prev =>
      simp only [stepEvent, prevStep]
      split
      · exact ⟨h1, h2, h3⟩
      · exact setIndexEffect_inv s _ ⟨h1, h2, h3⟩
    | playPause =>
      simp only [stepEvent]
      split
      · exact ⟨h1, h2, h3⟩
      · unfold playBranch
        split <;> exact ⟨h2, h2, h3⟩
    | replayCur =>
      simp only [stepEvent]
      unfold replayCurrent
      split
      · exact ⟨h2, h2, h3⟩
      · exact ⟨h1, h2, h3⟩
    | unlock => exact ⟨h1, h2, h3⟩
    | setRepeat v =>
      simp only [stepEvent]
      have hc : 1 ≤ clampRepeat v ∧ clampRepeat v ≤ 5 := by
        unfold clampRepeat
        omega
      split
      · exact ⟨h1, h2, h3⟩
      · exact ⟨hc.1, hc.1, hc.2⟩
    | unitComplete =>
      simp only [stepEvent, unitCompleteStep]
      split
      · exact ⟨show 1 ≤ s.repeatRemain - 1 by omega, h2, h3⟩
      · split
        · exact setIndexEffect_inv s _ ⟨h1, h2, h3⟩
        · exact ⟨h1, h2, h3⟩

/-- Witness for C10: the clamp at a concrete out-of-range stored value,
the done path at counter 1, and invariant preservation across a concrete
completed unit. -/
theorem claim_C10_repeat_remain_positive_witness :
    (1 ≤ clampRepeat (-7) ∧ clampRepeat (-7) ≤ 5) ∧
    advanceOrRepeat 1 (fun r => r + 100) (fun r => r) = 1 ∧
    1 ≤ (stepEvent deckTwo [0, 1] .unitComplete sessionAtLast).1.repeatRemain :=
  ⟨claim_C10_repeat_remain_positive.1 (-7),
   claim_C10_repeat_remain_positive.2.1 Nat 1 (fun r => r + 100) (fun r => r)
     (by decide),
   (claim_C10_repeat_remain_positive.2.2.2 deckTwo [0, 1] .unitComplete
     sessionAtLast ⟨by decide, by decide, by decide⟩).1⟩
